import Mathlib

/-!
Shallow embedding of the portfolio analytics core of the repository:
`src/services/calculationService.ts` (currency conversion, position
valuation, TWR, XIRR, allocation, risk metrics, concentration) and the
FIFO tax-lot matcher of `src/pages/TaxReport.tsx`.

Conventions of the embedding:
* JavaScript `number` becomes `ℚ` wherever the source only performs
  field operations and comparisons; `Math.pow` with a fractional
  exponent and `Math.sqrt` force `ℝ` (real power / square root) in the
  functions that use them.
* An ISO date string is represented by the number of milliseconds
  returned by `Date.getTime()`; where the source also calls
  `Date.getFullYear()` the date carries that year alongside the time.
* `Array.prototype.sort` with an ascending comparator is a stable sort,
  modelled by `List.insertionSort` on the same key.
* `null` results become `Option`.
* Fields the analytics never read (ids of snapshots, notes, update
  timestamps) are dropped from the records.
-/

namespace PortfolioCalc

/-- Currency: closed set ILS / USD / EUR (`src/types/portfolio.ts`). -/
inductive Currency
  | ILS
  | USD
  | EUR
deriving DecidableEq

/-- Exchange-rate table: factor to ILS for each foreign currency
(`lastUpdate` timestamp dropped, never read by the core). -/
structure ExchangeRates where
  USD : ℚ
  EUR : ℚ
deriving DecidableEq

/-- Embedding of `convertToILS` from calculationService.ts: identity on ILS,
multiplication by the table rate otherwise. -/
def convertToILS (amount : ℚ) (currency : Currency) (rates : ExchangeRates) : ℚ :=
  match currency with
  | .ILS => amount
  | .USD => amount * rates.USD
  | .EUR => amount * rates.EUR

/-- Transaction type (`buy` / `sell` / `dividend` / `split`). -/
inductive TransactionType
  | buy
  | sell
  | dividend
  | split
deriving DecidableEq

/-- A transaction date: `time` is `new Date(s).getTime()` in
milliseconds, `year` is `new Date(s).getFullYear()`; both are derived
from the same ISO string of the source record. -/
structure TxDate where
  time : ℚ
  year : ℤ
deriving DecidableEq

/-- A holding transaction (`src/types/portfolio.ts`); the optional
`note` is dropped. -/
structure Transaction where
  id : String
  type : TransactionType
  date : TxDate
  shares : ℚ
  pricePerShare : ℚ
  fees : ℚ
deriving DecidableEq

/-- A holding (`src/types/portfolio.ts`); `name` and `lastUpdate` are
dropped, the analytics never read them. -/
structure Holding where
  id : String
  symbol : String
  shares : ℚ
  currency : Currency
  groupId : Option String
  currentPrice : ℚ
  transactions : List Transaction
deriving DecidableEq

/-- A valuated holding: the input entity plus the computed fields. -/
structure HoldingWithCalculations extends Holding where
  costBasis : ℚ
  marketValue : ℚ
  marketValueILS : ℚ
  gainLoss : ℚ
  gainLossPercent : ℚ
deriving DecidableEq

/-- Embedding of `calculateHolding` from calculationService.ts: cost basis folds
`sum + t.shares * t.pricePerShare + t.fees` over the `buy`-filtered
transactions, market value is the stored share count times the current
price, and the percent is guarded by `costBasis > 0`. -/
def calculateHolding (holding : Holding) (rates : ExchangeRates) :
    HoldingWithCalculations :=
  let costBasis := (holding.transactions.filter
      (fun t => t.type = TransactionType.buy)).foldl
      (fun sum t => sum + t.shares * t.pricePerShare + t.fees) 0
  let marketValue := holding.shares * holding.currentPrice
  let marketValueILS := convertToILS marketValue holding.currency rates
  let gainLoss := marketValue - costBasis
  let gainLossPercent := if 0 < costBasis then gainLoss / costBasis * 100 else 0
  { holding with
    costBasis := costBasis
    marketValue := marketValue
    marketValueILS := marketValueILS
    gainLoss := gainLoss
    gainLossPercent := gainLossPercent }

/-- A portfolio snapshot (`src/types/portfolio.ts`): date as
milliseconds, value immediately before the day's cash flow, the signed
flow, and the stocks/bonds/cash breakdown (id, trigger and note are
dropped). -/
structure Snapshot where
  date : ℚ
  valueBeforeFlow : ℚ
  cashFlow : ℚ
  stocksValue : ℚ
  bondsValue : ℚ
  cashTotal : ℚ
deriving DecidableEq

/-- The defensive `[...snapshots].sort((a, b) => dateA - dateB)`:
stable ascending sort by date. -/
def sortSnapshots (snapshots : List Snapshot) : List Snapshot :=
  snapshots.insertionSort (fun a b => a.date ≤ b.date)

/-- Milliseconds per day, `1000 * 60 * 60 * 24`. -/
def msPerDay : ℚ := 1000 * 60 * 60 * 24

/-- The body of the TWR loop of `calculateTWR`: the accumulator is
`cumulativeReturn`, `prev`/`curr` walk adjacent sorted snapshots, and
the factor `curr.valueBeforeFlow / (prev.valueBeforeFlow +
prev.cashFlow)` is multiplied in only when the start value is
positive. -/
def twrLoop : ℚ → Snapshot → List Snapshot → ℚ
  | acc, _, [] => acc
  | acc, prev, curr :: rest =>
    let endValue := curr.valueBeforeFlow
    let startValue := prev.valueBeforeFlow + prev.cashFlow
    twrLoop (if 0 < startValue then acc * (endValue / startValue) else acc) curr rest

/-- Cumulative return factor of `calculateTWR` over the date-sorted
snapshots. -/
def twrCumulative (snapshots : List Snapshot) : ℚ :=
  match sortSnapshots snapshots with
  | [] => 1
  | s :: rest => twrLoop 1 s rest

/-- The `periodDays` of `calculateTWR`: last minus first sorted date in
days, floored at 1. -/
def twrPeriodDays (snapshots : List Snapshot) : ℚ :=
  let sorted := sortSnapshots snapshots
  let firstDate := (sorted.head?.map Snapshot.date).getD 0
  let lastDate := (sorted.getLast?.map Snapshot.date).getD 0
  max 1 ((lastDate - firstDate) / msPerDay)

/-- Result record `TWRResult` (`src/types/calculations.ts`); the real-valued
`annualizedReturn` field is computed by `twrAnnualizedReturn` below so
that the rational fields stay computable. -/
structure TWRResult where
  totalReturn : ℚ
  baseReturn : ℚ
  liveReturn : ℚ
  periodDays : ℚ
deriving DecidableEq

/-- Embedding of `calculateTWR` from calculationService.ts (rational fields):
`null` for fewer than 2 snapshots, otherwise total return
`(cumulative - 1) * 100`, `baseReturn` aliased to the total and
`liveReturn` fixed at 0. -/
def calculateTWR (snapshots : List Snapshot) : Option TWRResult :=
  if snapshots.length < 2 then none
  else
    let cumulativeReturn := twrCumulative snapshots
    let totalReturn := (cumulativeReturn - 1) * 100
    some
      { totalReturn := totalReturn
        baseReturn := totalReturn
        liveReturn := 0
        periodDays := twrPeriodDays snapshots }

/-- The `annualizedReturn` field of `calculateTWR`:
`years = periodDays / 365` and, `years` being positive,
`(cumulative ^ (1 / years) - 1) * 100` with a real power. -/
noncomputable def twrAnnualizedReturn (snapshots : List Snapshot) : Option ℝ :=
  if snapshots.length < 2 then none
  else
    let cumulativeReturn := twrCumulative snapshots
    let totalReturn := (cumulativeReturn - 1) * 100
    let years : ℚ := twrPeriodDays snapshots / 365
    some (if 0 < years
      then ((cumulativeReturn : ℝ) ^ ((1 : ℝ) / (years : ℝ)) - 1) * 100
      else (totalReturn : ℝ))

/-- A dated cash flow for XIRR; `date` is milliseconds as returned by
`Date.getTime()`. -/
structure CashFlowEntry where
  date : ℚ
  amount : ℚ
deriving DecidableEq

/-- Milliseconds per year, `365 * 24 * 60 * 60 * 1000`. -/
def msPerYear : ℚ := 365 * 24 * 60 * 60 * 1000

/-- The `xnpv` closure of `calculateXIRR`: net present value at `rate` of
the sorted flows, years measured from the first flow. -/
noncomputable def xnpv (sorted : List CashFlowEntry) (firstDate : ℚ) (rate : ℝ) : ℝ :=
  sorted.foldl (fun sum cf =>
    let years : ℝ := (((cf.date - firstDate) / msPerYear : ℚ) : ℝ)
    sum + (cf.amount : ℝ) / (1 + rate) ^ years) 0

/-- The `xnpvDerivative` closure of `calculateXIRR`. -/
noncomputable def xnpvDerivative (sorted : List CashFlowEntry) (firstDate : ℚ)
    (rate : ℝ) : ℝ :=
  sorted.foldl (fun sum cf =>
    let years : ℝ := (((cf.date - firstDate) / msPerYear : ℚ) : ℝ)
    sum - years * (cf.amount : ℝ) / (1 + rate) ^ (years + 1)) 0

/-- The Newton-Raphson loop of `calculateXIRR`: at most the given
number of iterations; a derivative below `1e-10` in magnitude breaks
out (yielding `null`), a step smaller than the `0.00001` tolerance
returns the rate as a percentage. -/
noncomputable def xirrNewton (sorted : List CashFlowEntry) (firstDate : ℚ) :
    ℕ → ℝ → Option ℝ
  | 0, _ => none
  | iterations + 1, rate =>
    let npv := xnpv sorted firstDate rate
    let derivative := xnpvDerivative sorted firstDate rate
    if |derivative| < 1e-10 then none
    else
      let newRate := rate - npv / derivative
      if |newRate - rate| < 0.00001 then some (newRate * 100)
      else xirrNewton sorted firstDate iterations newRate

/-- Embedding of `calculateXIRR` from calculationService.ts; the source defaults
`guess` to `0.1`, here it is an explicit argument. -/
noncomputable def calculateXIRR (cashFlows : List CashFlowEntry) (guess : ℝ) :
    Option ℝ :=
  if cashFlows.length < 2 then none
  else
    let sorted := cashFlows.insertionSort (fun a b => a.date ≤ b.date)
    let firstDate := (sorted.head?.map CashFlowEntry.date).getD 0
    xirrNewton sorted firstDate 100 guess

/-- An asset group (`src/types/portfolio.ts`). -/
structure Group where
  id : String
  name : String
  targetPercent : ℚ
  color : String
deriving DecidableEq

/-- One row of the allocation result (`src/types/calculations.ts`). -/
structure AllocationItem where
  groupId : String
  groupName : String
  currentValue : ℚ
  currentPercent : ℚ
  targetPercent : ℚ
  difference : ℚ
  differenceValue : ℚ
  color : String
deriving DecidableEq

/-- The allocation result (`src/types/calculations.ts`). -/
structure AllocationResult where
  items : List AllocationItem
  totalValue : ℚ
  rebalanceNeeded : Bool
deriving DecidableEq

/-- Embedding of `calculateAllocation` from calculationService.ts: degenerate
zero-total branch, then per group the sum of normalized market values
of the holdings whose `groupId` matches; rebalance when any absolute
difference exceeds 5 points. -/
def calculateAllocation (holdings : List HoldingWithCalculations)
    (groups : List Group) : AllocationResult :=
  let totalValue := holdings.foldl (fun sum h => sum + h.marketValueILS) 0
  if totalValue = 0 then
    { items := groups.map (fun g =>
        { groupId := g.id
          groupName := g.name
          currentValue := 0
          currentPercent := 0
          targetPercent := g.targetPercent
          difference := -g.targetPercent
          differenceValue := 0
          color := g.color })
      totalValue := 0
      rebalanceNeeded := false }
  else
    let items := groups.map (fun group =>
      let groupHoldings := holdings.filter (fun h => h.groupId = some group.id)
      let currentValue := groupHoldings.foldl (fun sum h => sum + h.marketValueILS) 0
      let currentPercent := currentValue / totalValue * 100
      let difference := currentPercent - group.targetPercent
      { groupId := group.id
        groupName := group.name
        currentValue := currentValue
        currentPercent := currentPercent
        targetPercent := group.targetPercent
        difference := difference
        differenceValue := difference / 100 * totalValue
        color := group.color })
    { items := items
      totalValue := totalValue
      rebalanceNeeded := items.any (fun item => decide (5 < |item.difference|)) }

/-- Total snapshot value `stocksValue + bondsValue + cashTotal` used by
the risk analytics. -/
def snapshotTotal (s : Snapshot) : ℚ :=
  s.stocksValue + s.bondsValue + s.cashTotal

/-- The loop of `calculateReturns`: simple period return for each
adjacent sorted pair, skipping pairs with non-positive previous
total. -/
def returnsLoop : Snapshot → List Snapshot → List ℚ
  | _, [] => []
  | prev, curr :: rest =>
    (if 0 < snapshotTotal prev
      then [(snapshotTotal curr - snapshotTotal prev) / snapshotTotal prev]
      else []) ++ returnsLoop curr rest

/-- Embedding of `calculateReturns` from calculationService.ts. -/
def calculateReturns (snapshots : List Snapshot) : List ℚ :=
  if snapshots.length < 2 then []
  else
    match sortSnapshots snapshots with
    | [] => []
    | s :: rest => returnsLoop s rest

/-- Running `reduce((a, b) => a + b, 0)` on a rational array. -/
def qsum (values : List ℚ) : ℚ :=
  values.foldl (fun a b => a + b) 0

/-- Running `reduce((a, b) => a + b, 0)` on a real array. -/
noncomputable def rsum (values : List ℝ) : ℝ :=
  values.foldl (fun a b => a + b) 0

/-- Embedding of `standardDeviation` from calculationService.ts: 0 below two
values, else the square root of the sample variance (n − 1). -/
noncomputable def standardDeviation (values : List ℚ) : ℝ :=
  if values.length < 2 then 0
  else
    let mean : ℚ := qsum values / values.length
    let squaredDiffs := values.map (fun v => (((v - mean) : ℚ) : ℝ) ^ (2 : ℕ))
    Real.sqrt (rsum squaredDiffs / ((values.length : ℝ) - 1))

/-- Embedding of `downsideDeviation` from calculationService.ts: over the returns
strictly below the threshold; 0 when there are fewer than 2 of them,
else the square root of the population variance (divide by the count)
of the deviations from the threshold. -/
noncomputable def downsideDeviation (returns : List ℚ) (threshold : ℚ) : ℝ :=
  let downsideReturns := returns.filter (fun r => r < threshold)
  if downsideReturns.length < 2 then 0
  else
    let squaredDiffs := downsideReturns.map
      (fun r => (((r - threshold) : ℚ) : ℝ) ^ (2 : ℕ))
    Real.sqrt (rsum squaredDiffs / (downsideReturns.length : ℝ))

/-- Embedding of `calculateSharpeRatio` from calculationService.ts (the source name
ends in a token the development avoids in identifiers); the source
defaults `riskFreeRate` to `0.04`, here it is explicit. -/
noncomputable def calculateSharpe (snapshots : List Snapshot)
    (riskFreeRate : ℝ) : Option ℝ :=
  let returns := calculateReturns snapshots
  if returns.length < 12 then none
  else
    let avgReturn : ℚ := qsum returns / returns.length
    let annualizedReturn : ℝ := (avgReturn : ℝ) * 12
    let annualizedStdDev := standardDeviation returns * Real.sqrt 12
    if annualizedStdDev = 0 then none
    else some ((annualizedReturn - riskFreeRate) / annualizedStdDev)

/-- Embedding of `calculateSortinoRatio` from calculationService.ts (the source name
ends in a token the development avoids in identifiers); the threshold of
`downsideDeviation` is the source's default `0`, and the source defaults
`riskFreeRate` to `0.04`. -/
noncomputable def calculateSortino (snapshots : List Snapshot)
    (riskFreeRate : ℝ) : Option ℝ :=
  let returns := calculateReturns snapshots
  if returns.length < 12 then none
  else
    let avgReturn : ℚ := qsum returns / returns.length
    let annualizedReturn : ℝ := (avgReturn : ℝ) * 12
    let annualizedDownside := downsideDeviation returns 0 * Real.sqrt 12
    if annualizedDownside = 0 then none
    else some ((annualizedReturn - riskFreeRate) / annualizedDownside)

/-- Result record `ConcentrationRisk` of calculationService.ts. -/
structure ConcentrationRisk where
  topHoldingPercent : ℚ
  top5HoldingsPercent : ℚ
  herfindahlIndex : ℚ
  isConcentrated : Bool
deriving DecidableEq

/-- Embedding of `calculateConcentrationRisk` from calculationService.ts: all-zero
record for a zero total, otherwise top-1 / top-5 shares over a stable
descending sort and `HHI = Σ (value / total * 100)²`. -/
def calculateConcentrationRisk (holdings : List HoldingWithCalculations) :
    ConcentrationRisk :=
  let totalValue := holdings.foldl (fun sum h => sum + h.marketValueILS) 0
  if totalValue = 0 then
    { topHoldingPercent := 0
      top5HoldingsPercent := 0
      herfindahlIndex := 0
      isConcentrated := false }
  else
    let sorted := holdings.insertionSort
      (fun a b => b.marketValueILS ≤ a.marketValueILS)
    let topHoldingPercent :=
      match sorted with
      | [] => 0
      | h :: _ => h.marketValueILS / totalValue * 100
    let top5HoldingsPercent :=
      ((sorted.take 5).foldl (fun sum h => sum + h.marketValueILS) 0)
        / totalValue * 100
    let herfindahlIndex := holdings.foldl (fun sum h =>
      sum + (h.marketValueILS / totalValue * 100) ^ (2 : ℕ)) 0
    { topHoldingPercent := topHoldingPercent
      top5HoldingsPercent := top5HoldingsPercent
      herfindahlIndex := herfindahlIndex
      isConcentrated :=
        decide (2500 < herfindahlIndex) || decide (25 < topHoldingPercent) }

/-- The mutable state of the FIFO matching loop of `TaxReport.tsx`:
`remainingShares`, `totalCostBasis` and the earliest matched buy
date. -/
structure FifoState where
  remainingShares : ℚ
  totalCostBasis : ℚ
  earliestBuyDate : Option TxDate
deriving DecidableEq

/-- One iteration of the `for (const buy of buys)` loop of
`TaxReport.tsx`: the early `break` on exhausted shares becomes a no-op
(shares never replenish), a buy dated strictly after the sale is
skipped (`continue`), otherwise `min(remaining, buy.shares)` shares
are matched at the buy price and the earliest matched buy date is
tracked. -/
def fifoStep (saleDate : TxDate) (st : FifoState) (buy : Transaction) : FifoState :=
  if st.remainingShares ≤ 0 then st
  else if saleDate.time < buy.date.time then st
  else
    let sharesToMatch := min st.remainingShares buy.shares
    { remainingShares := st.remainingShares - sharesToMatch
      totalCostBasis := st.totalCostBasis + sharesToMatch * buy.pricePerShare
      earliestBuyDate :=
        match st.earliestBuyDate with
        | none => some buy.date
        | some d => if buy.date.time < d.time then some buy.date else some d }

/-- The event kind of a taxable event in `TaxReport.tsx`. -/
inductive EventKind
  | sale
  | dividend
deriving DecidableEq

/-- A taxable event (`TaxReport.tsx`); `description` is dropped. -/
structure TaxableEvent where
  id : String
  date : TxDate
  kind : EventKind
  symbol : String
  proceeds : ℚ
  costBasis : ℚ
  gainLoss : ℚ
  currency : Currency
  holdingPeriodDays : ℤ
  isShortTerm : Bool
deriving DecidableEq

/-- The taxable event that `TaxReport.tsx` pushes for one sale of a
holding: FIFO fold over the full buy list, proceeds
`shares * pricePerShare`, gain/loss net of the matched basis and the
sale fees, holding period floored to whole days from the earliest
matched buy (0 with no match), short-term below 365 days. -/
def saleEvent (holding : Holding) (buys : List Transaction)
    (sale : Transaction) : TaxableEvent :=
  let final := buys.foldl (fifoStep sale.date)
    { remainingShares := sale.shares, totalCostBasis := 0, earliestBuyDate := none }
  let proceeds := sale.shares * sale.pricePerShare
  let gainLoss := proceeds - final.totalCostBasis - sale.fees
  let holdingPeriodDays : ℤ :=
    match final.earliestBuyDate with
    | some d => ⌊(sale.date.time - d.time) / msPerDay⌋
    | none => 0
  { id := sale.id
    date := sale.date
    kind := .sale
    symbol := holding.symbol
    proceeds := proceeds
    costBasis := final.totalCostBasis
    gainLoss := gainLoss
    currency := holding.currency
    holdingPeriodDays := holdingPeriodDays
    isShortTerm := decide (holdingPeriodDays < 365) }

/-- The sale events that `TaxReport.tsx` produces for one holding and
one reporting year: every `sell` transaction whose date's year is the
selected year, matched by `saleEvent` against the holding's full
`buy`-filtered transaction list. -/
def taxableSaleEvents (holding : Holding) (selectedYear : ℤ) : List TaxableEvent :=
  let sales := holding.transactions.filter (fun t => t.type = TransactionType.sell)
  let buys := holding.transactions.filter (fun t => t.type = TransactionType.buy)
  (sales.filter (fun s => s.date.year = selectedYear)).map (saleEvent holding buys)

/-! ### Specification-side definitions

The definitions below follow the wording of the specification (period
factors over adjacent pairs, FIFO matched lots, population downside
deviation); the theorems compare them with the source embeddings
above. -/

/-- Spec wording for a TWR period: start value
`prev.valueBeforeFlow + prev.cashFlow`, end value
`curr.valueBeforeFlow`, factor `end / start` with a no-op factor 1
when the start value is not positive. -/
def periodFactor (prev curr : Snapshot) : ℚ :=
  let startValue := prev.valueBeforeFlow + prev.cashFlow
  if 0 < startValue then curr.valueBeforeFlow / startValue else 1

/-- Chained product of period factors from a leading snapshot through
a list of successors. -/
def factorsProd : Snapshot → List Snapshot → ℚ
  | _, [] => 1
  | prev, curr :: rest => periodFactor prev curr * factorsProd curr rest

/-- Spec wording for the cumulative TWR factor: the product of the
period factors of all adjacent pairs of the date-sorted snapshot
list. -/
def specCumulative (snapshots : List Snapshot) : ℚ :=
  let sorted := sortSnapshots snapshots
  ((sorted.zip sorted.tail).map (fun pc => periodFactor pc.1 pc.2)).prod

/-- Spec wording for the period span: last sorted date minus first
sorted date in days, with a minimum of 1 day. -/
def specPeriodDays (snapshots : List Snapshot) : ℚ :=
  let sorted := sortSnapshots snapshots
  max 1 ((((sorted.getLast?.map Snapshot.date).getD 0)
    - ((sorted.head?.map Snapshot.date).getD 0)) / msPerDay)

/-- Spec wording for FIFO matching: walk the buy list in stored order,
skip buys dated after the sale, and match `min(remaining, buy.shares)`
shares of each remaining buy until the sale is satisfied; the result
pairs each matched buy with its matched share count. -/
def specMatchedBuys (saleDate : TxDate) : ℚ → List Transaction →
    List (ℚ × Transaction)
  | _, [] => []
  | remaining, b :: bs =>
    if remaining ≤ 0 then []
    else if saleDate.time < b.date.time then specMatchedBuys saleDate remaining bs
    else (min remaining b.shares, b) ::
      specMatchedBuys saleDate (remaining - min remaining b.shares) bs

/-- Spec wording for the matched cost basis: the sum of
`matchedShares × buyPricePerShare` over the matched buys. -/
def specMatchedBasis (saleDate : TxDate) (saleShares : ℚ)
    (buys : List Transaction) : ℚ :=
  ((specMatchedBuys saleDate saleShares buys).map
    (fun mb => mb.1 * mb.2.pricePerShare)).sum

/-- Spec wording for the acquisition time of the matched lot: the
earliest (minimum) matched buy time, when any buy matched. -/
def specEarliestTime (saleDate : TxDate) (saleShares : ℚ)
    (buys : List Transaction) : Option ℚ :=
  ((specMatchedBuys saleDate saleShares buys).map
    (fun mb => mb.2.date.time)).min?

/-- Claim wording for the Sortino denominator: the population standard
deviation (divide by the count, not n − 1) of the deviations from the
threshold over exactly the returns below the threshold, with no guard
on how many there are. -/
noncomputable def downsideDevPopulation (returns : List ℚ) (threshold : ℚ) : ℝ :=
  let ds := returns.filter (fun r => r < threshold)
  Real.sqrt (((ds.map (fun r => (((r - threshold) : ℚ) : ℝ) ^ (2 : ℕ))).sum)
    / (ds.length : ℝ))

/-- Time-projection of the earliest-date update of `fifoStep`: fold a
candidate time into an optional running minimum, keeping the incumbent
on ties. -/
def minTimeOpt : Option ℚ → ℚ → Option ℚ
  | none, t => some t
  | some s, t => if t < s then some t else some s

/-! ### Concrete inputs used by the witnesses and counterexamples -/

/-- First snapshot of the spec's two-snapshot TWR scenario: value 1000,
no flow. -/
def exSnapA : Snapshot := ⟨0, 1000, 0, 0, 0, 0⟩

/-- Second snapshot of the spec's TWR scenario: value 1100, no flow,
365 days after the first. -/
def exSnapB : Snapshot := ⟨365 * msPerDay, 1100, 0, 0, 0, 0⟩

/-- A third snapshot, 730 days in, used for the TWR composition
witness. -/
def exSnapC : Snapshot := ⟨730 * msPerDay, 1210, 0, 0, 0, 0⟩

/-- Thirteen monthly snapshots whose totals are 100 then twelve times 90:
they produce 12 period returns of which exactly one is below 0. -/
def exSortinoSnaps : List Snapshot :=
  [⟨0, 0, 0, 100, 0, 0⟩, ⟨1, 0, 0, 90, 0, 0⟩, ⟨2, 0, 0, 90, 0, 0⟩,
   ⟨3, 0, 0, 90, 0, 0⟩, ⟨4, 0, 0, 90, 0, 0⟩, ⟨5, 0, 0, 90, 0, 0⟩,
   ⟨6, 0, 0, 90, 0, 0⟩, ⟨7, 0, 0, 90, 0, 0⟩, ⟨8, 0, 0, 90, 0, 0⟩,
   ⟨9, 0, 0, 90, 0, 0⟩, ⟨10, 0, 0, 90, 0, 0⟩, ⟨11, 0, 0, 90, 0, 0⟩,
   ⟨12, 0, 0, 90, 0, 0⟩]

/-- An exchange-rate table with unit rates. -/
def exRatesOne : ExchangeRates := ⟨1, 1⟩

/-- A holding whose single buy carries a negative fee, driving the
cost basis negative. -/
def exNegFeeHolding : Holding :=
  ⟨"hneg", "NEG", 1, .ILS, none, 1,
    [⟨"t1", .buy, ⟨0, 2024⟩, 1, 1, -2⟩]⟩

/-- The spec's valuation scenario: 10 shares of "AAA" bought at 100
with no fee, current price 150. -/
def exAAAHolding : Holding :=
  ⟨"haaa", "AAA", 10, .ILS, none, 150,
    [⟨"t1", .buy, ⟨0, 2024⟩, 10, 100, 0⟩]⟩

/-- Buy of the spec's FIFO scenario: 10 shares at 100 on day 1. -/
def exBuy1 : Transaction := ⟨"b1", .buy, ⟨1 * msPerDay, 2023⟩, 10, 100, 0⟩

/-- Buy of the spec's FIFO scenario: 10 shares at 120 on day 200. -/
def exBuy2 : Transaction := ⟨"b2", .buy, ⟨200 * msPerDay, 2023⟩, 10, 120, 0⟩

/-- Sale of the spec's FIFO scenario: 15 shares at 150 on day 300 with
no fee. -/
def exSaleTx : Transaction := ⟨"s1", .sell, ⟨300 * msPerDay, 2023⟩, 15, 150, 0⟩

/-- The holding of the spec's FIFO scenario. -/
def exTaxHolding : Holding :=
  ⟨"htax", "TAX", 5, .ILS, none, 150, [exBuy1, exBuy2, exSaleTx]⟩

/-- A second sale with the same date and share count as `exSaleTx` but
a different price and fee. -/
def exSale2Tx : Transaction := ⟨"s2", .sell, ⟨300 * msPerDay, 2023⟩, 15, 170, 4⟩

/-- A sell transaction on day 0. -/
def exEarlySellTx : Transaction := ⟨"es", .sell, ⟨0, 2024⟩, 5, 10, 1⟩

/-- A buy transaction on day 1, after `exEarlySellTx`. -/
def exLateBuyTx : Transaction := ⟨"lb", .buy, ⟨msPerDay, 2024⟩, 5, 10, 0⟩

/-- A holding whose only buy is dated after its only sale. -/
def exLateBuyHolding : Holding :=
  ⟨"hlate", "LATE", 0, .ILS, none, 0, [exEarlySellTx, exLateBuyTx]⟩

/-- A group used by the allocation counterexample. -/
def exGroupG : Group := ⟨"g1", "G1", 50, "gray"⟩

/-- A valuated holding worth 100, assigned to group "g1". -/
def exAllocH1 : HoldingWithCalculations :=
  { toHolding := ⟨"h1", "A", 0, .ILS, some "g1", 0, []⟩
    costBasis := 0
    marketValue := 0
    marketValueILS := 100
    gainLoss := 0
    gainLossPercent := 0 }

/-- A valuated holding worth −50 that belongs to no group. -/
def exAllocH2 : HoldingWithCalculations :=
  { toHolding := ⟨"h2", "B", 0, .ILS, none, 0, []⟩
    costBasis := 0
    marketValue := 0
    marketValueILS := -50
    gainLoss := 0
    gainLossPercent := 0 }

/-- A second valuated holding worth 100, for the equal-weight HHI
witness. -/
def exAllocH3 : HoldingWithCalculations :=
  { toHolding := ⟨"h3", "C", 0, .ILS, some "g1", 0, []⟩
    costBasis := 0
    marketValue := 0
    marketValueILS := 100
    gainLoss := 0
    gainLossPercent := 0 }

/-! ### Helper lemmas -/

/-- A running-sum `reduce` is the initial value plus the sum of the
mapped list. -/
theorem foldl_add_map {α : Type} (f : α → ℚ) :
    ∀ (l : List α) (a : ℚ), l.foldl (fun s x => s + f x) a = a + (l.map f).sum
  | [], a => by simp
  | x :: l, a => by
    rw [List.foldl_cons, foldl_add_map f l (a + f x), List.map_cons, List.sum_cons]
    ring

/-- The cost-basis `reduce` of `calculateHolding` as a mapped sum. -/
theorem foldl_costBasis :
    ∀ (l : List Transaction) (a : ℚ),
      l.foldl (fun sum t => sum + t.shares * t.pricePerShare + t.fees) a
        = a + (l.map (fun t => t.shares * t.pricePerShare + t.fees)).sum
  | [], a => by simp
  | t :: l, a => by
    rw [List.foldl_cons, foldl_costBasis l _, List.map_cons, List.sum_cons]
    ring

/-- The fold `qsum` agrees with `List.sum`. -/
theorem qsum_eq_sum (l : List ℚ) : qsum l = l.sum := by
  have h := foldl_add_map (fun x : ℚ => x) l 0
  simpa [qsum] using h

/-- A real running-sum `reduce` is the initial value plus the sum. -/
theorem foldl_add_id_real :
    ∀ (l : List ℝ) (a : ℝ), l.foldl (fun s x => s + x) a = a + l.sum
  | [], a => by simp
  | x :: l, a => by
    rw [List.foldl_cons, foldl_add_id_real l (a + x), List.sum_cons]
    ring

/-- The fold `rsum` agrees with `List.sum`. -/
theorem rsum_eq_sum (l : List ℝ) : rsum l = l.sum := by
  have h := foldl_add_id_real l 0
  simpa [rsum] using h

/-- The TWR loop multiplies the accumulator by the chained product of
period factors. -/
theorem twrLoop_eq :
    ∀ (l : List Snapshot) (acc : ℚ) (prev : Snapshot),
      twrLoop acc prev l = acc * factorsProd prev l
  | [], acc, prev => by simp [twrLoop, factorsProd]
  | curr :: rest, acc, prev => by
    simp only [twrLoop, factorsProd]
    rw [twrLoop_eq rest _ curr]
    unfold periodFactor
    by_cases h : 0 < prev.valueBeforeFlow + prev.cashFlow
    · rw [if_pos h, if_pos h]
      ring
    · rw [if_neg h, if_neg h]
      ring

/-- The chained product of period factors is the product over adjacent
pairs. -/
theorem factorsProd_eq_zip :
    ∀ (prev : Snapshot) (l : List Snapshot),
      factorsProd prev l
        = (((prev :: l).zip l).map (fun pc => periodFactor pc.1 pc.2)).prod
  | _, [] => by simp [factorsProd]
  | prev, curr :: rest => by
    rw [factorsProd, factorsProd_eq_zip curr rest, List.zip_cons_cons,
      List.map_cons, List.prod_cons]

/-- The spec-side cumulative factor equals the source's. -/
theorem specCumulative_eq_twrCumulative (snapshots : List Snapshot) :
    specCumulative snapshots = twrCumulative snapshots := by
  unfold specCumulative twrCumulative
  cases h : sortSnapshots snapshots with
  | nil => simp
  | cons s rest =>
    show (List.map (fun pc => periodFactor pc.1 pc.2) ((s :: rest).zip rest)).prod
      = twrLoop 1 s rest
    rw [twrLoop_eq, one_mul, factorsProd_eq_zip]

/-- Chained factor products compose across a shared middle snapshot. -/
theorem factorsProd_append (xs : List Snapshot) (p m : Snapshot)
    (ys : List Snapshot) :
    factorsProd p (xs ++ m :: ys) = factorsProd p (xs ++ [m]) * factorsProd m ys := by
  induction xs generalizing p with
  | nil => simp [factorsProd]
  | cons x xs ih =>
    simp only [List.cons_append, factorsProd, List.append_eq]
    rw [ih x, mul_assoc]

/-- The defensive sort is the identity on an already date-sorted
list. -/
theorem sortSnapshots_eq_self {l : List Snapshot}
    (h : l.Sorted (fun a b => a.date ≤ b.date)) : sortSnapshots l = l :=
  h.insertionSort_eq

/-- On a date-sorted non-empty list the cumulative TWR factor is the
chained product of period factors. -/
theorem twrCumulative_sorted_cons {s : Snapshot} {rest : List Snapshot}
    (h : (s :: rest).Sorted (fun a b => a.date ≤ b.date)) :
    twrCumulative (s :: rest) = factorsProd s rest := by
  unfold twrCumulative
  rw [sortSnapshots_eq_self h]
  show twrLoop 1 s rest = factorsProd s rest
  rw [twrLoop_eq, one_mul]

/-- The FIFO fold is the identity when every buy is dated after the
sale. -/
theorem fifo_foldl_of_all_late (saleDate : TxDate) :
    ∀ (bs : List Transaction) (st : FifoState),
      (∀ b ∈ bs, saleDate.time < b.date.time) →
      bs.foldl (fifoStep saleDate) st = st := by
  intro bs
  induction bs with
  | nil => intro st _; rfl
  | cons b bs ih =>
    intro st h
    have hb : saleDate.time < b.date.time := h b (List.mem_cons_self b bs)
    have hstep : fifoStep saleDate st b = st := by
      by_cases hr : st.remainingShares ≤ 0
      · simp [fifoStep, hr]
      · simp [fifoStep, hr, hb]
    rw [List.foldl_cons, hstep]
    exact ih st (fun b' hb' => h b' (List.mem_cons_of_mem b hb'))

/-- A sell transaction of the holding dated in the selected year always
contributes its `saleEvent` (matched against the holding's full buy
list) to the year's taxable sale events. -/
theorem saleEvent_mem_taxableSaleEvents {holding : Holding} {year : ℤ}
    {s : Transaction} (hmem : s ∈ holding.transactions)
    (hsell : s.type = TransactionType.sell) (hyear : s.date.year = year) :
    saleEvent holding
        (holding.transactions.filter (fun t => t.type = TransactionType.buy)) s
      ∈ taxableSaleEvents holding year := by
  simp only [taxableSaleEvents]
  refine List.mem_map.2 ⟨s, ?_, rfl⟩
  refine List.mem_filter.2 ⟨List.mem_filter.2 ⟨hmem, ?_⟩, ?_⟩
  · simp [hsell]
  · simp [hyear]

/-! ### Claims -/

/-- C7: `calculateTWR` returns null below 2 snapshots, `calculateXIRR`
returns null below 2 cash flows, and the Sharpe and Sortino
computations return null whenever the snapshot series produces fewer
than 12 period returns; being total Lean functions into `Option`, none
of them can throw. -/
theorem C7_insufficient_data_null :
    (∀ (snapshots : List Snapshot),
      snapshots.length < 2 → calculateTWR snapshots = none) ∧
    (∀ (cashFlows : List CashFlowEntry) (guess : ℝ),
      cashFlows.length < 2 → calculateXIRR cashFlows guess = none) ∧
    (∀ (snapshots : List Snapshot) (riskFreeRate : ℝ),
      (calculateReturns snapshots).length < 12 →
        calculateSharpe snapshots riskFreeRate = none) ∧
    (∀ (snapshots : List Snapshot) (riskFreeRate : ℝ),
      (calculateReturns snapshots).length < 12 →
        calculateSortino snapshots riskFreeRate = none) := by
  refine ⟨?_, ?_, ?_, ?_⟩
  · intro s h
    simp [calculateTWR, h]
  · intro cfs g h
    simp [calculateXIRR, h]
  · intro s rf h
    simp [calculateSharpe, h]
  · intro s rf h
    simp [calculateSortino, h]

/-- C7 witness: the empty inputs are below every sample-size bound and
all four functions return null on them. -/
theorem C7_witness :
    calculateTWR [] = none ∧ calculateXIRR [] 0.1 = none ∧
    calculateSharpe [] 0.04 = none ∧ calculateSortino [] 0.04 = none :=
  ⟨C7_insufficient_data_null.1 [] (by decide),
   C7_insufficient_data_null.2.1 [] 0.1 (by decide),
   C7_insufficient_data_null.2.2.1 [] 0.04 (by decide),
   C7_insufficient_data_null.2.2.2 [] 0.04 (by decide)⟩

/-- C4 counterexample: with a negative-fee buy the cost basis is
negative (here −1) and the code returns a gain/loss percent of 0, not
`gainLoss / costBasis * 100`, so the claimed formula (qualified only at
cost basis 0) fails. -/
theorem C4_percent_counterexample :
    (calculateHolding exNegFeeHolding exRatesOne).costBasis ≠ 0 ∧
    (calculateHolding exNegFeeHolding exRatesOne).gainLossPercent ≠
      (calculateHolding exNegFeeHolding exRatesOne).gainLoss /
        (calculateHolding exNegFeeHolding exRatesOne).costBasis * 100 := by
  norm_num [calculateHolding, exNegFeeHolding, exRatesOne, convertToILS]

/-- C4 (amended): `calculateHolding` computes the cost basis as the sum
over buy transactions of `shares * pricePerShare + fees` (sell and
dividend transactions never change it), market value as the stored
share count times the current price, gain/loss as their difference, and
gain/loss percent as `gainLoss / costBasis * 100` — or 0 when the cost
basis is NOT POSITIVE (the source guards with `costBasis > 0`, not only
`= 0`). A single fee-bearing buy at a flat price loses exactly the fee,
and the concrete "AAA" scenario evaluates as specified. -/
theorem C4_calculateHolding_amended :
    (∀ (holding : Holding) (rates : ExchangeRates),
      (calculateHolding holding rates).costBasis =
        ((holding.transactions.filter (fun t => t.type = TransactionType.buy)).map
          (fun t => t.shares * t.pricePerShare + t.fees)).sum ∧
      (calculateHolding holding rates).marketValue =
        holding.shares * holding.currentPrice ∧
      (calculateHolding holding rates).gainLoss =
        (calculateHolding holding rates).marketValue -
          (calculateHolding holding rates).costBasis ∧
      (calculateHolding holding rates).gainLossPercent =
        (if 0 < (calculateHolding holding rates).costBasis
          then (calculateHolding holding rates).gainLoss /
            (calculateHolding holding rates).costBasis * 100
          else 0)) ∧
    (∀ (holding : Holding) (rates : ExchangeRates) (t : Transaction),
      t.type = TransactionType.sell ∨ t.type = TransactionType.dividend →
      (calculateHolding { holding with transactions := holding.transactions ++ [t] }
        rates).costBasis = (calculateHolding holding rates).costBasis) ∧
    (∀ (i sym tid : String) (s p fe : ℚ) (cur : Currency) (gid : Option String)
        (d : TxDate) (rates : ExchangeRates),
      (calculateHolding ⟨i, sym, s, cur, gid, p, [⟨tid, .buy, d, s, p, fe⟩]⟩
        rates).gainLoss = -fe) ∧
    ((calculateHolding exAAAHolding exRatesOne).costBasis = 1000 ∧
     (calculateHolding exAAAHolding exRatesOne).marketValue = 1500 ∧
     (calculateHolding exAAAHolding exRatesOne).gainLoss = 500 ∧
     (calculateHolding exAAAHolding exRatesOne).gainLossPercent = 50) := by
  refine ⟨?_, ?_, ?_,
    by norm_num [calculateHolding, exAAAHolding, exRatesOne, convertToILS]⟩
  · intro holding rates
    refine ⟨?_, rfl, rfl, rfl⟩
    simp [calculateHolding, foldl_costBasis]
  · intro holding rates t ht
    simp only [calculateHolding, List.filter_append]
    rcases ht with ht | ht <;> simp [ht]
  · intro i sym tid s p fe cur gid d rates
    simp only [calculateHolding, List.filter_cons, List.filter_nil]
    norm_num

/-- C4 witness: appending a dividend transaction to the "AAA" holding
leaves its cost basis unchanged. -/
theorem C4_witness :
    (calculateHolding { exAAAHolding with transactions :=
        exAAAHolding.transactions ++ [⟨"d1", .dividend, ⟨0, 2024⟩, 1, 7, 3⟩] }
      exRatesOne).costBasis = (calculateHolding exAAAHolding exRatesOne).costBasis :=
  C4_calculateHolding_amended.2.1 exAAAHolding exRatesOne _ (Or.inr rfl)

/-- C8: the FIFO matcher never depletes the buy pool — the matched cost
basis, holding period and classification of a sale are a function of
the sale's date and share count and the full buy list alone, so two
sales with identical date and share count receive identical values; and
every sale's event is produced against the holding's full buy list. -/
theorem C8_no_depletion :
    (∀ (holding : Holding) (buys : List Transaction) (s1 s2 : Transaction),
      s1.date = s2.date → s1.shares = s2.shares →
      (saleEvent holding buys s1).costBasis = (saleEvent holding buys s2).costBasis ∧
      (saleEvent holding buys s1).holdingPeriodDays
        = (saleEvent holding buys s2).holdingPeriodDays ∧
      (saleEvent holding buys s1).isShortTerm
        = (saleEvent holding buys s2).isShortTerm) ∧
    (∀ (holding : Holding) (year : ℤ) (s : Transaction),
      s ∈ holding.transactions → s.type = TransactionType.sell →
      s.date.year = year →
      saleEvent holding
          (holding.transactions.filter (fun t => t.type = TransactionType.buy)) s
        ∈ taxableSaleEvents holding year) := by
  constructor
  · intro holding buys s1 s2 hd hs
    simp [saleEvent, hd, hs]
  · intro holding year s hmem hsell hyear
    exact saleEvent_mem_taxableSaleEvents hmem hsell hyear

/-- C8 witness: two same-day 15-share sales at different prices and
fees receive the same matched basis, holding period and
classification. -/
theorem C8_witness :
    (saleEvent exTaxHolding [exBuy1, exBuy2] exSaleTx).costBasis
      = (saleEvent exTaxHolding [exBuy1, exBuy2] exSale2Tx).costBasis ∧
    (saleEvent exTaxHolding [exBuy1, exBuy2] exSaleTx).holdingPeriodDays
      = (saleEvent exTaxHolding [exBuy1, exBuy2] exSale2Tx).holdingPeriodDays ∧
    (saleEvent exTaxHolding [exBuy1, exBuy2] exSaleTx).isShortTerm
      = (saleEvent exTaxHolding [exBuy1, exBuy2] exSale2Tx).isShortTerm :=
  C8_no_depletion.1 exTaxHolding [exBuy1, exBuy2] exSaleTx exSale2Tx rfl rfl

/-- C10: a sale in the reporting year with no qualifying buy (all buys
dated after it, or none at all) still yields a taxable sale event, with
cost basis 0, holding period 0 days, short-term classification, and
gain/loss equal to the proceeds minus the sale fees. -/
theorem C10_unmatched_sale :
    ∀ (holding : Holding) (year : ℤ) (sale : Transaction),
      sale ∈ holding.transactions → sale.type = TransactionType.sell →
      sale.date.year = year →
      (∀ b ∈ holding.transactions.filter (fun t => t.type = TransactionType.buy),
        sale.date.time < b.date.time) →
      saleEvent holding
          (holding.transactions.filter (fun t => t.type = TransactionType.buy)) sale
        ∈ taxableSaleEvents holding year ∧
      (saleEvent holding
        (holding.transactions.filter (fun t => t.type = TransactionType.buy))
        sale).costBasis = 0 ∧
      (saleEvent holding
        (holding.transactions.filter (fun t => t.type = TransactionType.buy))
        sale).holdingPeriodDays = 0 ∧
      (saleEvent holding
        (holding.transactions.filter (fun t => t.type = TransactionType.buy))
        sale).isShortTerm = true ∧
      (saleEvent holding
        (holding.transactions.filter (fun t => t.type = TransactionType.buy))
        sale).gainLoss = sale.shares * sale.pricePerShare - sale.fees := by
  intro holding year sale hmem hsell hyear hlate
  have hfold := fifo_foldl_of_all_late sale.date
    (holding.transactions.filter (fun t => t.type = TransactionType.buy))
    { remainingShares := sale.shares, totalCostBasis := 0, earliestBuyDate := none }
    hlate
  refine ⟨saleEvent_mem_taxableSaleEvents hmem hsell hyear, ?_, ?_, ?_, ?_⟩ <;>
    simp [saleEvent, hfold]

/-- C10 witness: a holding whose only buy postdates its only sale still
reports the sale with zero basis, zero holding period, short-term
classification and fee-net gain. -/
theorem C10_witness :
    saleEvent exLateBuyHolding
        (exLateBuyHolding.transactions.filter
          (fun t => t.type = TransactionType.buy)) exEarlySellTx
      ∈ taxableSaleEvents exLateBuyHolding 2024 ∧
    (saleEvent exLateBuyHolding
      (exLateBuyHolding.transactions.filter
        (fun t => t.type = TransactionType.buy)) exEarlySellTx).costBasis = 0 ∧
    (saleEvent exLateBuyHolding
      (exLateBuyHolding.transactions.filter
        (fun t => t.type = TransactionType.buy)) exEarlySellTx).holdingPeriodDays = 0 ∧
    (saleEvent exLateBuyHolding
      (exLateBuyHolding.transactions.filter
        (fun t => t.type = TransactionType.buy)) exEarlySellTx).isShortTerm = true ∧
    (saleEvent exLateBuyHolding
      (exLateBuyHolding.transactions.filter
        (fun t => t.type = TransactionType.buy)) exEarlySellTx).gainLoss =
      exEarlySellTx.shares * exEarlySellTx.pricePerShare - exEarlySellTx.fees :=
  C10_unmatched_sale exLateBuyHolding 2024 exEarlySellTx
    (by simp [exLateBuyHolding]) rfl rfl
    (by
      intro b hb
      simp [exLateBuyHolding, exEarlySellTx, exLateBuyTx] at hb
      subst hb
      norm_num [exEarlySellTx, exLateBuyTx, msPerDay])

/-- C1: for at least 2 snapshots, `calculateTWR` sorts by date and
returns total return `(Π period factors − 1) × 100` over adjacent
sorted pairs — each factor `curr.valueBeforeFlow / (prev.valueBeforeFlow
+ prev.cashFlow)`, or a no-op 1 when the start value is not positive —
with `periodDays` the sorted date span floored at 1 day and annualized
return `(cumulative ^ (365 / periodDays) − 1) × 100`; the concrete
1000→1100 scenario over 365 days yields 10% total and 10% annualized. -/
theorem C1_twr :
    (∀ (snapshots : List Snapshot), 2 ≤ snapshots.length →
      calculateTWR snapshots = some
        { totalReturn := (specCumulative snapshots - 1) * 100
          baseReturn := (specCumulative snapshots - 1) * 100
          liveReturn := 0
          periodDays := specPeriodDays snapshots } ∧
      twrAnnualizedReturn snapshots = some
        (((specCumulative snapshots : ℝ) ^
            ((365 : ℝ) / ((specPeriodDays snapshots : ℚ) : ℝ)) - 1) * 100)) ∧
    (calculateTWR [exSnapA, exSnapB] = some
      { totalReturn := 10, baseReturn := 10, liveReturn := 0, periodDays := 365 } ∧
     twrAnnualizedReturn [exSnapA, exSnapB] = some 10) := by
  have hsorted : List.Sorted (fun a b : Snapshot => a.date ≤ b.date)
      [exSnapA, exSnapB] := by
    simp only [List.sorted_cons, List.mem_singleton, List.not_mem_nil]
    norm_num [exSnapA, exSnapB, msPerDay]
  have hcum : twrCumulative [exSnapA, exSnapB] = 11 / 10 := by
    rw [twrCumulative_sorted_cons hsorted]
    norm_num [factorsProd, periodFactor, exSnapA, exSnapB]
  have hpd : twrPeriodDays [exSnapA, exSnapB] = 365 := by
    unfold twrPeriodDays
    rw [sortSnapshots_eq_self hsorted]
    norm_num [exSnapA, exSnapB, msPerDay]
  refine ⟨?_, ?_, ?_⟩
  · intro s hlen
    have hnot : ¬ s.length < 2 := not_lt.mpr hlen
    have hpdef : specPeriodDays s = twrPeriodDays s := rfl
    constructor
    · simp only [calculateTWR, if_neg hnot]
      rw [specCumulative_eq_twrCumulative, hpdef]
    · simp only [twrAnnualizedReturn, if_neg hnot]
      have h1 : (1 : ℚ) ≤ twrPeriodDays s := le_max_left _ _
      have hpos : (0 : ℚ) < twrPeriodDays s / 365 := by
        apply div_pos (by linarith) (by norm_num)
      rw [if_pos hpos]
      refine congrArg some ?_
      have hexp : (1 : ℝ) / ((twrPeriodDays s / 365 : ℚ) : ℝ)
          = (365 : ℝ) / ((twrPeriodDays s : ℚ) : ℝ) := by
        push_cast
        rw [one_div_div]
      rw [hexp, specCumulative_eq_twrCumulative, hpdef]
  · simp only [calculateTWR, List.length_cons, List.length_nil]
    rw [if_neg (by norm_num), hcum]
    have hpdef : specPeriodDays [exSnapA, exSnapB]
        = twrPeriodDays [exSnapA, exSnapB] := rfl
    rw [show twrPeriodDays [exSnapA, exSnapB] = 365 from hpd]
    norm_num
  · simp only [twrAnnualizedReturn, List.length_cons, List.length_nil]
    rw [if_neg (by norm_num), hcum, hpd]
    rw [if_pos (by norm_num : (0 : ℚ) < 365 / 365)]
    refine congrArg some ?_
    have hone : (1 : ℝ) / (((365 : ℚ) / 365 : ℚ) : ℝ) = 1 := by norm_num
    rw [hone, Real.rpow_one]
    push_cast
    norm_num

/-- C1 witness: the general clause applied to the two concrete
snapshots. -/
theorem C1_witness :
    calculateTWR [exSnapA, exSnapB] = some
      { totalReturn := (specCumulative [exSnapA, exSnapB] - 1) * 100
        baseReturn := (specCumulative [exSnapA, exSnapB] - 1) * 100
        liveReturn := 0
        periodDays := specPeriodDays [exSnapA, exSnapB] } ∧
    twrAnnualizedReturn [exSnapA, exSnapB] = some
      (((specCumulative [exSnapA, exSnapB] : ℝ) ^
          ((365 : ℝ) / ((specPeriodDays [exSnapA, exSnapB] : ℚ) : ℝ)) - 1) * 100) :=
  C1_twr.1 [exSnapA, exSnapB] (by norm_num)

/-- C5: the cumulative TWR factor composes across any internal split
snapshot of a date-sorted series — the factors of the prefix (ending at
the split) and of the suffix (starting at the split) multiply to the
factor of the whole series. -/
theorem C5_twr_composition :
    ∀ (xs ys : List Snapshot) (m : Snapshot),
      xs ≠ [] → ys ≠ [] →
      (xs ++ m :: ys).Sorted (fun a b => a.date ≤ b.date) →
      ∃ r₁ r₂ r : TWRResult,
        calculateTWR (xs ++ [m]) = some r₁ ∧
        calculateTWR (m :: ys) = some r₂ ∧
        calculateTWR (xs ++ m :: ys) = some r ∧
        (r₁.totalReturn / 100 + 1) * (r₂.totalReturn / 100 + 1)
          = r.totalReturn / 100 + 1 := by
  intro xs ys m hxs hys hsort
  obtain ⟨x, xs', rfl⟩ := List.exists_cons_of_ne_nil hxs
  obtain ⟨y, ys', rfl⟩ := List.exists_cons_of_ne_nil hys
  have hsub1 : List.Sublist ((x :: xs') ++ [m]) ((x :: xs') ++ m :: y :: ys') :=
    List.Sublist.append_left ((List.nil_sublist (y :: ys')).cons₂ m) (x :: xs')
  have hsub2 : List.Sublist (m :: y :: ys') ((x :: xs') ++ m :: y :: ys') :=
    List.sublist_append_right (x :: xs') (m :: y :: ys')
  have hsort1 : ((x :: xs') ++ [m]).Sorted (fun a b => a.date ≤ b.date) :=
    hsort.sublist hsub1
  have hsort2 : (m :: y :: ys').Sorted (fun a b => a.date ≤ b.date) :=
    hsort.sublist hsub2
  have hlen1 : ¬ ((x :: xs') ++ [m]).length < 2 := by
    simp [List.length_append]
  have hlen2 : ¬ (m :: y :: ys').length < 2 := by
    simp
  have hlen3 : ¬ ((x :: xs') ++ m :: y :: ys').length < 2 := by
    simp only [List.length_append, List.length_cons]
    omega
  have hc1 : twrCumulative ((x :: xs') ++ [m]) = factorsProd x (xs' ++ [m]) := by
    rw [List.cons_append]
    rw [List.cons_append] at hsort1
    exact twrCumulative_sorted_cons hsort1
  have hc2 : twrCumulative (m :: y :: ys') = factorsProd m (y :: ys') :=
    twrCumulative_sorted_cons hsort2
  have hc3 : twrCumulative ((x :: xs') ++ m :: y :: ys')
      = factorsProd x (xs' ++ m :: y :: ys') := by
    rw [List.cons_append]
    rw [List.cons_append] at hsort
    exact twrCumulative_sorted_cons hsort
  simp only [calculateTWR, if_neg hlen1, if_neg hlen2, if_neg hlen3]
  refine ⟨_, _, _, rfl, rfl, rfl, ?_⟩
  dsimp only
  have hring : ∀ c : ℚ, (c - 1) * 100 / 100 + 1 = c := by
    intro c
    ring
  rw [hring, hring, hring, hc1, hc2, hc3, factorsProd_append xs' x m (y :: ys')]

/-- C5 witness: the composition applied to a concrete three-snapshot
sorted series split at its middle snapshot. -/
theorem C5_witness :
    ∃ r₁ r₂ r : TWRResult,
      calculateTWR ([exSnapA] ++ [exSnapB]) = some r₁ ∧
      calculateTWR (exSnapB :: [exSnapC]) = some r₂ ∧
      calculateTWR ([exSnapA] ++ exSnapB :: [exSnapC]) = some r ∧
      (r₁.totalReturn / 100 + 1) * (r₂.totalReturn / 100 + 1)
        = r.totalReturn / 100 + 1 :=
  C5_twr_composition [exSnapA] [exSnapC] exSnapB (by simp) (by simp)
    (by
      simp only [List.cons_append, List.nil_append, List.sorted_cons,
        List.mem_cons, List.mem_singleton, List.not_mem_nil]
      norm_num [exSnapA, exSnapB, exSnapC, msPerDay])

/-- With no shares left to match, the spec matches nothing. -/
theorem specMatchedBuys_nonpos (saleDate : TxDate) (rem : ℚ) (h : rem ≤ 0) :
    ∀ bs : List Transaction, specMatchedBuys saleDate rem bs = []
  | [] => rfl
  | b :: bs => by simp [specMatchedBuys, h]

/-- Applying `minTimeOpt` to a present incumbent takes the binary minimum. -/
theorem minTimeOpt_some (s t : ℚ) : minTimeOpt (some s) t = some (min s t) := by
  show (if t < s then some t else some s) = some (min s t)
  rcases lt_or_le t s with h | h
  · rw [if_pos h, min_eq_right h.le]
  · rw [if_neg (not_lt.mpr h), min_eq_left h]

/-- Folding `minTimeOpt` from a present incumbent folds the binary
minimum. -/
theorem foldl_minTimeOpt_some :
    ∀ (ts : List ℚ) (s : ℚ), ts.foldl minTimeOpt (some s) = some (ts.foldl min s)
  | [], _ => rfl
  | t :: ts, s => by
    rw [List.foldl_cons, minTimeOpt_some, foldl_minTimeOpt_some ts]
    rfl

/-- Folding `minTimeOpt` from nothing computes the list minimum. -/
theorem foldl_minTimeOpt_none (ts : List ℚ) :
    ts.foldl minTimeOpt none = ts.min? := by
  cases ts with
  | nil => rfl
  | cons t ts =>
    rw [List.foldl_cons]
    show ts.foldl minTimeOpt (some t) = _
    rw [foldl_minTimeOpt_some ts]
    rfl

/-- The FIFO fold of `TaxReport.tsx` agrees with the spec's matched-lot
description: the accumulated cost basis grows by the sum of
`matchedShares × buyPrice` over the spec's matched buys, and the
tracked earliest-date time is the `minTimeOpt` fold of the matched
buys' times. -/
theorem fifo_foldl_eq_spec (saleDate : TxDate) :
    ∀ (bs : List Transaction) (st : FifoState),
      (bs.foldl (fifoStep saleDate) st).totalCostBasis
        = st.totalCostBasis
          + ((specMatchedBuys saleDate st.remainingShares bs).map
              (fun mb => mb.1 * mb.2.pricePerShare)).sum ∧
      (bs.foldl (fifoStep saleDate) st).earliestBuyDate.map TxDate.time
        = ((specMatchedBuys saleDate st.remainingShares bs).map
            (fun mb => mb.2.date.time)).foldl minTimeOpt
            (st.earliestBuyDate.map TxDate.time) := by
  intro bs
  induction bs with
  | nil =>
    intro st
    simp [specMatchedBuys]
  | cons b bs ih =>
    intro st
    rw [List.foldl_cons]
    by_cases hr : st.remainingShares ≤ 0
    · have hstep : fifoStep saleDate st b = st := by
        simp [fifoStep, hr]
      have hspec : specMatchedBuys saleDate st.remainingShares (b :: bs) = [] := by
        simp [specMatchedBuys, hr]
      have hspec2 : specMatchedBuys saleDate st.remainingShares bs = [] :=
        specMatchedBuys_nonpos saleDate st.remainingShares hr bs
      have hih := ih st
      rw [hspec2] at hih
      rw [hstep, hspec]
      simpa using hih
    · by_cases hd : saleDate.time < b.date.time
      · have hstep : fifoStep saleDate st b = st := by
          simp [fifoStep, hr, hd]
        have hspec : specMatchedBuys saleDate st.remainingShares (b :: bs)
            = specMatchedBuys saleDate st.remainingShares bs := by
          simp [specMatchedBuys, hr, hd]
        rw [hstep, hspec]
        exact ih st
      · have hrem : (fifoStep saleDate st b).remainingShares
            = st.remainingShares - min st.remainingShares b.shares := by
          simp [fifoStep, hr, hd]
        have hbasis : (fifoStep saleDate st b).totalCostBasis
            = st.totalCostBasis + min st.remainingShares b.shares * b.pricePerShare := by
          simp [fifoStep, hr, hd]
        have htime : (fifoStep saleDate st b).earliestBuyDate.map TxDate.time
            = minTimeOpt (st.earliestBuyDate.map TxDate.time) b.date.time := by
          simp only [fifoStep, if_neg hr, if_neg hd]
          cases st.earliestBuyDate with
          | none => rfl
          | some d =>
            simp [minTimeOpt, apply_ite (Option.map TxDate.time)]
        have hspec : specMatchedBuys saleDate st.remainingShares (b :: bs)
            = (min st.remainingShares b.shares, b)
              :: specMatchedBuys saleDate
                  (st.remainingShares - min st.remainingShares b.shares) bs := by
          simp [specMatchedBuys, hr, hd]
        have h1 := (ih (fifoStep saleDate st b)).1
        have h2 := (ih (fifoStep saleDate st b)).2
        rw [hrem, hbasis] at h1
        rw [hrem, htime] at h2
        constructor
        · rw [h1, hspec, List.map_cons, List.sum_cons]
          ring
        · rw [h2, hspec, List.map_cons, List.foldl_cons]

/-- The fields of a `saleEvent` in terms of the spec's matched lots:
basis, gain/loss, holding period from the earliest matched time, and
the short-term test. -/
theorem saleEvent_fields (holding : Holding) (buys : List Transaction)
    (sale : Transaction) :
    (saleEvent holding buys sale).costBasis
      = specMatchedBasis sale.date sale.shares buys ∧
    (saleEvent holding buys sale).gainLoss
      = sale.shares * sale.pricePerShare
        - specMatchedBasis sale.date sale.shares buys - sale.fees ∧
    (saleEvent holding buys sale).holdingPeriodDays
      = (match specEarliestTime sale.date sale.shares buys with
          | some t => ⌊(sale.date.time - t) / msPerDay⌋
          | none => 0) ∧
    ((saleEvent holding buys sale).isShortTerm = true ↔
      (saleEvent holding buys sale).holdingPeriodDays < 365) := by
  have hf := fifo_foldl_eq_spec sale.date buys
    { remainingShares := sale.shares, totalCostBasis := 0, earliestBuyDate := none }
  have hbasis : (buys.foldl (fifoStep sale.date)
      { remainingShares := sale.shares, totalCostBasis := 0,
        earliestBuyDate := none }).totalCostBasis
      = specMatchedBasis sale.date sale.shares buys := by
    have := hf.1
    simpa [specMatchedBasis] using this
  have htime : (buys.foldl (fifoStep sale.date)
      { remainingShares := sale.shares, totalCostBasis := 0,
        earliestBuyDate := none }).earliestBuyDate.map TxDate.time
      = specEarliestTime sale.date sale.shares buys := by
    have h2 := hf.2
    rw [h2]
    show List.foldl minTimeOpt none _ = _
    rw [foldl_minTimeOpt_none]
    rfl
  refine ⟨hbasis, ?_, ?_, ?_⟩
  · show sale.shares * sale.pricePerShare
        - (buys.foldl (fifoStep sale.date)
            { remainingShares := sale.shares, totalCostBasis := 0,
              earliestBuyDate := none }).totalCostBasis - sale.fees = _
    rw [hbasis]
  · show (match (buys.foldl (fifoStep sale.date)
        { remainingShares := sale.shares, totalCostBasis := 0,
          earliestBuyDate := none }).earliestBuyDate with
        | some d => ⌊(sale.date.time - d.time) / msPerDay⌋
        | none => 0) = _
    cases he : (buys.foldl (fifoStep sale.date)
        { remainingShares := sale.shares, totalCostBasis := 0,
          earliestBuyDate := none }).earliestBuyDate with
    | none =>
      have hsp : specEarliestTime sale.date sale.shares buys = none := by
        rw [← htime, he]
        rfl
      rw [hsp]
    | some d =>
      have hsp : specEarliestTime sale.date sale.shares buys = some d.time := by
        rw [← htime, he]
        rfl
      rw [hsp]
  · show decide ((saleEvent holding buys sale).holdingPeriodDays < 365) = true
        ↔ (saleEvent holding buys sale).holdingPeriodDays < 365
    exact decide_eq_true_iff

/-- C2: every sell of the holding dated in the reporting year is FIFO
matched (in stored order, skipping buys dated after the sale) against
the full buy list: its event carries cost basis = Σ matchedShares ×
buyPrice, gain/loss = proceeds − basis − fees, holding period = sale
date − earliest matched buy date, and is short-term iff that period is
below 365 days; the spec's 10@100 / 10@120 / sell 15@150 scenario gives
basis 1600, proceeds 2250, gain 650 and a 299-day (day-1-based) period. -/
theorem C2_fifo_matching :
    (∀ (holding : Holding) (year : ℤ) (sale : Transaction),
      sale ∈ holding.transactions → sale.type = TransactionType.sell →
      sale.date.year = year →
      saleEvent holding
          (holding.transactions.filter (fun t => t.type = TransactionType.buy)) sale
        ∈ taxableSaleEvents holding year) ∧
    (∀ (holding : Holding) (buys : List Transaction) (sale : Transaction),
      (saleEvent holding buys sale).costBasis
        = specMatchedBasis sale.date sale.shares buys ∧
      (saleEvent holding buys sale).gainLoss
        = sale.shares * sale.pricePerShare
          - specMatchedBasis sale.date sale.shares buys - sale.fees ∧
      (saleEvent holding buys sale).holdingPeriodDays
        = (match specEarliestTime sale.date sale.shares buys with
            | some t => ⌊(sale.date.time - t) / msPerDay⌋
            | none => 0) ∧
      ((saleEvent holding buys sale).isShortTerm = true ↔
        (saleEvent holding buys sale).holdingPeriodDays < 365)) ∧
    ((saleEvent exTaxHolding [exBuy1, exBuy2] exSaleTx).costBasis = 1600 ∧
     (saleEvent exTaxHolding [exBuy1, exBuy2] exSaleTx).proceeds = 2250 ∧
     (saleEvent exTaxHolding [exBuy1, exBuy2] exSaleTx).gainLoss = 650 ∧
     (saleEvent exTaxHolding [exBuy1, exBuy2] exSaleTx).holdingPeriodDays = 299 ∧
     (saleEvent exTaxHolding [exBuy1, exBuy2] exSaleTx).isShortTerm = true) := by
  refine ⟨?_, ?_, ?_⟩
  · intro holding year sale hmem hsell hyear
    exact saleEvent_mem_taxableSaleEvents hmem hsell hyear
  · intro holding buys sale
    exact saleEvent_fields holding buys sale
  · norm_num [saleEvent, fifoStep, exTaxHolding, exBuy1, exBuy2, exSaleTx,
      msPerDay, min_def]

/-- C2 witness: the membership clause applied to the concrete FIFO
scenario. -/
theorem C2_witness :
    saleEvent exTaxHolding
        (exTaxHolding.transactions.filter (fun t => t.type = TransactionType.buy))
        exSaleTx
      ∈ taxableSaleEvents exTaxHolding 2023 :=
  C2_fifo_matching.1 exTaxHolding 2023 exSaleTx (by simp [exTaxHolding]) rfl rfl

/-- With at least two downside returns the source's guarded downside
deviation is exactly the population formula. -/
theorem downsideDeviation_eq_pop (returns : List ℚ) (threshold : ℚ)
    (h : ¬ (returns.filter (fun r => r < threshold)).length < 2) :
    downsideDeviation returns threshold = downsideDevPopulation returns threshold := by
  simp only [downsideDeviation, downsideDevPopulation]
  rw [if_neg h, rsum_eq_sum]

/-- With at least two downside returns the downside deviation is
strictly positive (each deviation from the threshold is strictly
negative, so its square is strictly positive). -/
theorem downsideDeviation_pos (returns : List ℚ) (threshold : ℚ)
    (h : 2 ≤ (returns.filter (fun r => r < threshold)).length) :
    0 < downsideDeviation returns threshold := by
  simp only [downsideDeviation]
  rw [if_neg (not_lt.mpr h)]
  apply Real.sqrt_pos.mpr
  apply div_pos
  · rw [rsum_eq_sum]
    apply List.sum_pos
    · intro x hx
      obtain ⟨r, hr, rfl⟩ := List.mem_map.1 hx
      have hneg : r < threshold := by
        have hmem := List.mem_filter.1 hr
        simpa using hmem.2
      have hne : ((r - threshold : ℚ) : ℝ) ≠ 0 := by
        exact_mod_cast sub_ne_zero.mpr (ne_of_lt hneg)
      exact pow_two_pos_of_ne_zero hne
    · apply List.length_pos.mp
      rw [List.length_map]
      omega
  · have hlen : 0 < (returns.filter (fun r => r < threshold)).length := by omega
    exact_mod_cast hlen

/-- C3 counterexample: 13 snapshots produce 12 returns with exactly one
below the threshold; the population downside deviation over that one
return is 1/10 ≠ 0 and there are 12 ≥ 12 returns, yet
`calculateSortinoRatio` returns null (its internal guard zeroes the
deviation whenever there are fewer than 2 downside returns), so the
claimed "null iff fewer than 12 returns or population downside
deviation = 0" is false. -/
theorem C3_sortino_counterexample :
    calculateSortino exSortinoSnaps 0.04 = none ∧
    ¬ ((calculateReturns exSortinoSnaps).length < 12 ∨
       downsideDevPopulation (calculateReturns exSortinoSnaps) 0 = 0) := by
  have hsorted : List.Sorted (fun a b : Snapshot => a.date ≤ b.date)
      exSortinoSnaps := by
    simp only [exSortinoSnaps, List.sorted_cons, List.mem_cons, List.not_mem_nil]
    norm_num
  have hret : calculateReturns exSortinoSnaps
      = [-1/10, 0, 0, 0, 0, 0, 0, 0, 0, 0, 0, 0] := by
    show calculateReturns exSortinoSnaps = _
    unfold calculateReturns
    rw [if_neg (by norm_num [exSortinoSnaps]), sortSnapshots_eq_self hsorted]
    show returnsLoop ⟨0, 0, 0, 100, 0, 0⟩
      [⟨1, 0, 0, 90, 0, 0⟩, ⟨2, 0, 0, 90, 0, 0⟩, ⟨3, 0, 0, 90, 0, 0⟩,
       ⟨4, 0, 0, 90, 0, 0⟩, ⟨5, 0, 0, 90, 0, 0⟩, ⟨6, 0, 0, 90, 0, 0⟩,
       ⟨7, 0, 0, 90, 0, 0⟩, ⟨8, 0, 0, 90, 0, 0⟩, ⟨9, 0, 0, 90, 0, 0⟩,
       ⟨10, 0, 0, 90, 0, 0⟩, ⟨11, 0, 0, 90, 0, 0⟩, ⟨12, 0, 0, 90, 0, 0⟩] = _
    norm_num [returnsLoop, snapshotTotal]
  have hfilter : ((([-1/10, 0, 0, 0, 0, 0, 0, 0, 0, 0, 0, 0]) : List ℚ).filter
      (fun r => r < 0)) = [-1/10] := by
    norm_num [List.filter_cons]
  constructor
  · simp only [calculateSortino, hret]
    rw [if_neg (by norm_num)]
    have hdd : downsideDeviation
        ([-1/10, 0, 0, 0, 0, 0, 0, 0, 0, 0, 0, 0] : List ℚ) 0 = 0 := by
      simp only [downsideDeviation, hfilter]
      rw [if_pos (by norm_num)]
    rw [hdd, zero_mul, if_pos rfl]
  · rw [hret]
    push_neg
    refine ⟨by norm_num, ?_⟩
    simp only [downsideDevPopulation, hfilter]
    apply ne_of_gt
    apply Real.sqrt_pos.mpr
    push_cast
    norm_num

/-- C3 (amended): `calculateSortinoRatio` returns null iff there are
fewer than 12 period returns OR FEWER THAN 2 downside returns (the
source's downside deviation zeroes itself below 2 downside samples;
with at least 2 strictly-below-threshold returns the population
deviation can never be 0); any non-null value equals
`(mean × 12 − riskFreeRate) / (population downside deviation × √12)`. -/
theorem C3_sortino_amended :
    ∀ (snapshots : List Snapshot) (riskFreeRate : ℝ),
      (calculateSortino snapshots riskFreeRate = none ↔
        (calculateReturns snapshots).length < 12 ∨
        ((calculateReturns snapshots).filter (fun r => r < 0)).length < 2) ∧
      (∀ x : ℝ, calculateSortino snapshots riskFreeRate = some x →
        x = (((qsum (calculateReturns snapshots)
                / ((calculateReturns snapshots).length : ℚ) : ℚ) : ℝ) * 12
              - riskFreeRate)
            / (downsideDevPopulation (calculateReturns snapshots) 0
                * Real.sqrt 12)) := by
  intro snapshots riskFreeRate
  constructor
  · by_cases h12 : (calculateReturns snapshots).length < 12
    · simp [calculateSortino, h12]
    · by_cases hcnt : ((calculateReturns snapshots).filter
          (fun r => r < 0)).length < 2
      · have hdd : downsideDeviation (calculateReturns snapshots) 0 = 0 := by
          simp only [downsideDeviation]
          rw [if_pos hcnt]
        simp [calculateSortino, h12, hdd, hcnt]
      · have hpos := downsideDeviation_pos (calculateReturns snapshots) 0
          (not_lt.mp hcnt)
        have hsq : (0 : ℝ) < Real.sqrt 12 := Real.sqrt_pos.mpr (by norm_num)
        have hne : downsideDeviation (calculateReturns snapshots) 0
            * Real.sqrt 12 ≠ 0 := ne_of_gt (mul_pos hpos hsq)
        simp [calculateSortino, h12, hne, hcnt]
  · intro x hx
    simp only [calculateSortino] at hx
    by_cases h12 : (calculateReturns snapshots).length < 12
    · rw [if_pos h12] at hx
      exact absurd hx (by simp)
    · rw [if_neg h12] at hx
      by_cases hz : downsideDeviation (calculateReturns snapshots) 0
          * Real.sqrt 12 = 0
      · rw [if_pos hz] at hx
        exact absurd hx (by simp)
      · rw [if_neg hz] at hx
        have hcnt : ¬ ((calculateReturns snapshots).filter
            (fun r => r < 0)).length < 2 := by
          intro hc
          apply hz
          simp only [downsideDeviation]
          rw [if_pos hc, zero_mul]
        rw [downsideDeviation_eq_pop (calculateReturns snapshots) 0 hcnt] at hx
        exact (Option.some.inj hx).symm

/-- C3 witness: the amended null condition applied to the empty
snapshot list. -/
theorem C3_witness : calculateSortino [] 0.04 = none :=
  (C3_sortino_amended [] 0.04).1.mpr (Or.inl (by decide))

/-- Sums of mapped pointwise additions split. -/
theorem sum_map_add {α : Type} (l : List α) (f g : α → ℚ) :
    (l.map (fun x => f x + g x)).sum = (l.map f).sum + (l.map g).sum := by
  induction l with
  | nil => simp
  | cons x l ih =>
    simp only [List.map_cons, List.sum_cons, ih]
    ring

/-- Over groups with pairwise-distinct ids, at most one group matches a
holding's `groupId`, so the indicator sum is at most the value. -/
theorem sum_ite_group_le (v : ℚ) (hv : 0 ≤ v) (o : Option String) :
    ∀ (groups : List Group), (groups.map Group.id).Nodup →
      (groups.map (fun g => if o = some g.id then v else 0)).sum ≤ v := by
  intro groups
  induction groups with
  | nil =>
    intro _
    simpa using hv
  | cons g gs ih =>
    intro hnd
    rw [List.map_cons] at hnd
    have hnotin := (List.nodup_cons.1 hnd).1
    have hnd' := (List.nodup_cons.1 hnd).2
    rw [List.map_cons, List.sum_cons]
    by_cases ho : o = some g.id
    · have hzero : (gs.map (fun g' => if o = some g'.id then v else 0)).sum = 0 := by
        apply List.sum_eq_zero
        intro x hx
        obtain ⟨g', hg', rfl⟩ := List.mem_map.1 hx
        rw [if_neg]
        intro he
        rw [ho] at he
        have hid : g.id = g'.id := Option.some.inj he
        exact hnotin (hid ▸ List.mem_map.2 ⟨g', hg', rfl⟩)
      rw [if_pos ho, hzero, add_zero]
    · rw [if_neg ho, zero_add]
      exact ih hnd'

/-- With nonnegative values and distinct group ids, the per-group
filtered sums are bounded by the total. -/
theorem sum_groupValues_le (groups : List Group)
    (hnd : (groups.map Group.id).Nodup) :
    ∀ (holdings : List HoldingWithCalculations),
      (∀ h ∈ holdings, 0 ≤ h.marketValueILS) →
      (groups.map (fun g =>
          ((holdings.filter (fun h => h.groupId = some g.id)).map
            (fun h => h.marketValueILS)).sum)).sum
        ≤ (holdings.map (fun h => h.marketValueILS)).sum := by
  intro holdings
  induction holdings with
  | nil =>
    intro _
    simp
  | cons h hs ih =>
    intro hnn
    have hnn' : ∀ x ∈ hs, 0 ≤ x.marketValueILS :=
      fun x hx => hnn x (List.mem_cons_of_mem h hx)
    have hh : 0 ≤ h.marketValueILS := hnn h (List.mem_cons_self h hs)
    have hsplit : (groups.map (fun g =>
        (((h :: hs).filter (fun h' => h'.groupId = some g.id)).map
          (fun h' => h'.marketValueILS)).sum)).sum
        = (groups.map (fun g =>
            (if h.groupId = some g.id then h.marketValueILS else 0)
            + ((hs.filter (fun h' => h'.groupId = some g.id)).map
                (fun h' => h'.marketValueILS)).sum)).sum := by
      apply congrArg
      apply List.map_congr_left
      intro g _
      rw [List.filter_cons]
      by_cases hg : h.groupId = some g.id
      · simp [hg]
      · simp [hg]
    rw [hsplit, sum_map_add]
    have h1 := sum_ite_group_le h.marketValueILS hh h.groupId groups hnd
    have h2 := ih hnn'
    calc (groups.map (fun g => if h.groupId = some g.id
            then h.marketValueILS else 0)).sum
          + (groups.map (fun g =>
              ((hs.filter (fun h' => h'.groupId = some g.id)).map
                (fun h' => h'.marketValueILS)).sum)).sum
        ≤ h.marketValueILS + (hs.map (fun h' => h'.marketValueILS)).sum :=
          add_le_add h1 h2
      _ = ((h :: hs).map (fun h' => h'.marketValueILS)).sum := by
          rw [List.map_cons, List.sum_cons]

/-- C6 counterexample: one group worth 100 plus a groupless holding
worth −50 give a positive total of 50, yet the single group's current
value is 100 > 50, so the claimed bound fails on unrestricted valuated
holdings. -/
theorem C6_allocation_counterexample :
    ([exGroupG] : List Group) ≠ [] ∧
    0 < (calculateAllocation [exAllocH1, exAllocH2] [exGroupG]).totalValue ∧
    ¬ (((calculateAllocation [exAllocH1, exAllocH2] [exGroupG]).items.map
          (fun item => item.currentValue)).sum
        ≤ (calculateAllocation [exAllocH1, exAllocH2] [exGroupG]).totalValue) := by
  refine ⟨by simp, ?_, ?_⟩ <;>
  · norm_num [calculateAllocation, exAllocH1, exAllocH2, exGroupG, List.filter_cons]
    all_goals simp
    all_goals norm_num

/-- C6 (amended): for a non-empty group list, HOLDINGS WITH NONNEGATIVE
normalized market values and PAIRWISE-DISTINCT GROUP IDS, a positive
total makes the sum of all groups' current values at most the total
portfolio value (holdings with `groupId` null or unmatched are excluded
from groups but still count in the total; without the nonnegativity or
distinctness restrictions the bound is false). -/
theorem C6_allocation_amended :
    ∀ (holdings : List HoldingWithCalculations) (groups : List Group),
      groups ≠ [] →
      (∀ h ∈ holdings, 0 ≤ h.marketValueILS) →
      (groups.map Group.id).Nodup →
      0 < (holdings.map (fun h => h.marketValueILS)).sum →
      ((calculateAllocation holdings groups).items.map
          (fun item => item.currentValue)).sum
        ≤ (calculateAllocation holdings groups).totalValue := by
  intro holdings groups _ hnn hnd htot
  have hfold : holdings.foldl (fun sum h => sum + h.marketValueILS) 0
      = (holdings.map (fun h => h.marketValueILS)).sum := by
    rw [foldl_add_map, zero_add]
  have hne : ¬ holdings.foldl (fun sum h => sum + h.marketValueILS) 0 = 0 := by
    rw [hfold]
    exact ne_of_gt htot
  simp only [calculateAllocation]
  rw [if_neg hne]
  dsimp only
  rw [List.map_map]
  simp only [Function.comp_def, foldl_add_map, zero_add, hfold]
  exact sum_groupValues_le groups hnd holdings hnn

/-- C6 witness: the amended bound applied to a single holding fully
assigned to a single group. -/
theorem C6_witness :
    ((calculateAllocation [exAllocH1] [exGroupG]).items.map
        (fun item => item.currentValue)).sum
      ≤ (calculateAllocation [exAllocH1] [exGroupG]).totalValue :=
  C6_allocation_amended [exAllocH1] [exGroupG] (by simp)
    (by
      intro h hh
      simp only [List.mem_singleton] at hh
      subst hh
      norm_num [exAllocH1])
    (by simp)
    (by norm_num [exAllocH1])

/-- The HHI of an equal-weight portfolio with positive common value is
`10000 / N`. -/
theorem hhi_equal_values (holdings : List HoldingWithCalculations) (v : ℚ)
    (hne : holdings ≠ []) (hv : 0 < v)
    (hall : ∀ h ∈ holdings, h.marketValueILS = v) :
    (calculateConcentrationRisk holdings).herfindahlIndex
      = 10000 / holdings.length := by
  have hlen : (0 : ℚ) < holdings.length := by
    have hp : 0 < holdings.length := List.length_pos.2 hne
    exact_mod_cast hp
  have hmap : holdings.map (fun h => h.marketValueILS)
      = List.replicate holdings.length v := by
    have hm := List.eq_replicate_of_mem (l := holdings.map (fun h => h.marketValueILS))
      (a := v) ?_
    · rwa [List.length_map] at hm
    · intro b hb
      obtain ⟨h, hh, rfl⟩ := List.mem_map.1 hb
      exact hall h hh
  have htot : holdings.foldl (fun sum h => sum + h.marketValueILS) 0
      = holdings.length * v := by
    rw [foldl_add_map, zero_add, hmap, List.sum_replicate, nsmul_eq_mul]
  have htotne : ¬ holdings.foldl (fun sum h => sum + h.marketValueILS) 0 = 0 := by
    rw [htot]
    exact ne_of_gt (mul_pos hlen hv)
  simp only [calculateConcentrationRisk]
  rw [if_neg htotne]
  dsimp only
  rw [foldl_add_map, zero_add, htot]
  have hmapsq : holdings.map
      (fun h => (h.marketValueILS / (holdings.length * v) * 100) ^ (2 : ℕ))
      = List.replicate holdings.length
          ((v / (holdings.length * v) * 100) ^ (2 : ℕ)) := by
    have hm := List.eq_replicate_of_mem
      (l := holdings.map
        (fun h => (h.marketValueILS / (holdings.length * v) * 100) ^ (2 : ℕ)))
      (a := (v / (holdings.length * v) * 100) ^ (2 : ℕ)) ?_
    · rwa [List.length_map] at hm
    · intro b hb
      obtain ⟨h, hh, rfl⟩ := List.mem_map.1 hb
      rw [hall h hh]
  rw [hmapsq, List.sum_replicate, nsmul_eq_mul]
  have hNne : (holdings.length : ℚ) ≠ 0 := ne_of_gt hlen
  have hvne : v ≠ 0 := ne_of_gt hv
  field_simp
  ring

/-- C9: the Herfindahl index of `calculateConcentrationRisk` is exactly
10000 for a single positive-value holding and `10000 / N` for N
holdings of equal positive normalized value. -/
theorem C9_hhi :
    (∀ h : HoldingWithCalculations, 0 < h.marketValueILS →
      (calculateConcentrationRisk [h]).herfindahlIndex = 10000) ∧
    (∀ (holdings : List HoldingWithCalculations) (v : ℚ),
      holdings ≠ [] → 0 < v → (∀ h ∈ holdings, h.marketValueILS = v) →
      (calculateConcentrationRisk holdings).herfindahlIndex
        = 10000 / holdings.length) := by
  constructor
  · intro h hv
    have hone := hhi_equal_values [h] h.marketValueILS (by simp) hv
      (by simp)
    simpa using hone
  · intro holdings v hne hv hall
    exact hhi_equal_values holdings v hne hv hall

/-- C9 witness: one holding gives HHI 10000, two equal holdings give
HHI 5000. -/
theorem C9_witness :
    (calculateConcentrationRisk [exAllocH1]).herfindahlIndex = 10000 ∧
    (calculateConcentrationRisk [exAllocH1, exAllocH3]).herfindahlIndex = 5000 := by
  constructor
  · exact C9_hhi.1 exAllocH1 (by norm_num [exAllocH1])
  · have h2 := C9_hhi.2 [exAllocH1, exAllocH3] 100 (by simp) (by norm_num)
      (by
        intro h hh
        simp only [List.mem_cons, List.not_mem_nil, or_false] at hh
        rcases hh with rfl | rfl <;> rfl)
    norm_num at h2
    exact h2

end PortfolioCalc
